import Mathlib

/-!
Verification of the event-sourcing cache layer (`src/layer.ts`) of the
`use-dynamodb` repository.

The development shallowly embeds the code of `Layer` — the merge engine,
the partition/cursor resolver, the meta/metrics register, the lease lock,
and the `set`/`sync`/`reset` orchestrators — as executable Lean functions,
and proves (or refutes) the frozen claims about them.

Conventions of the embedding:
* JavaScript objects keyed by strings are association lists
  `List (String × α)` with JS insertion-order/overwrite semantics
  (`upsertA`).
* lodash `_.groupBy` is `groupByKey`, `_.maxBy(·, '__ts')` is `maxByTs`
  (lodash keeps the first element on ties: replacement only on strictly
  greater), `_.keyBy` is `keyByAll`, `Array.prototype.join` is `joinSep`,
  JS `String.replace` with a string pattern (first occurrence only) is
  `removeFirstStr`.
* DynamoDB numbers are `Int`; the storage-assigned `__ts` of a persisted
  record is the `ts` field; fallible collaborators return `Except`.
-/

namespace UseDynamodb

/-- The change type `Dynamodb.ChangeType` from `src/index.ts`. -/
inductive ChangeType where
  | PUT
  | UPDATE
  | DELETE
deriving DecidableEq, Repr

/-- A persisted pending event (`Layer.PendingEvent` of `src/layer.ts` plus the
storage-assigned `__ts` stamped by `db.batchWrite`, modelled as `ts`). -/
structure PendingRec (α : Type) where
  cursor : Int
  item : α
  pk : String
  sk : String
  ttl : Int
  type : ChangeType
  ts : Int
deriving DecidableEq, Repr

/-! ### JS object / lodash primitives -/

/-- JS object assignment `obj[k] = v`: overwrite the value in place if the key
exists (keeping its position), otherwise append the new key at the end. -/
def upsertA {α : Type} : List (String × α) → String × α → List (String × α)
  | [], kv => [kv]
  | (k, v) :: rest, kv =>
      if k = kv.1 then kv :: rest else (k, v) :: upsertA rest kv

/-- Add one element to the group of key `k`, creating the group at the end if
absent (the accumulation step of lodash `_.groupBy`). -/
def addGroup {α : Type} : List (String × List α) → String → α → List (String × List α)
  | [], k, x => [(k, [x])]
  | (k', g) :: rest, k, x =>
      if k' = k then (k', g ++ [x]) :: rest else (k', g) :: addGroup rest k x

/-- lodash `_.groupBy(l, f)`: groups in first-occurrence key order, each group
in original element order. -/
def groupByKey {α : Type} (f : α → String) (l : List α) : List (String × List α) :=
  l.foldl (fun acc x => addGroup acc (f x) x) []

/-- lodash `_.maxBy(group, '__ts')`: the element with maximal `ts`; on ties the
first one is kept (lodash replaces the running maximum only on strictly
greater). -/
def maxByTs {α : Type} : List (PendingRec α) → Option (PendingRec α)
  | [] => none
  | x :: xs => some (xs.foldl (fun b y => if y.ts > b.ts then y else b) x)

/-- lodash `_.keyBy(l, gid)` spread into an existing object `init`. -/
def keyByAll {α : Type} (gid : α → String) (init : List (String × α)) (l : List α) :
    List (String × α) :=
  (l.map (fun x => (gid x, x))).foldl upsertA init

/-! ### The merge engine (`Layer.merge`, `src/layer.ts:353-389`) -/

/-- The values of `mostRecentPendingEvents`: group the pending events by the
item's unique identifier and keep, per group, the event with maximal
record-`ts` (`_.maxBy(group, '__ts')`). -/
def mergeWinners {α : Type} (gid : α → String) (E : List (PendingRec α)) :
    List (PendingRec α) :=
  (groupByKey (fun e => gid e.item) E).filterMap (fun kg => maxByTs kg.2)

/-- The items of the winning non-`DELETE` events (`pendingSetItems`). -/
def mergeSetItems {α : Type} (gid : α → String) (E : List (PendingRec α)) : List α :=
  ((mergeWinners gid E).filter (fun e => e.type ≠ ChangeType.DELETE)).map (fun e => e.item)

/-- The identifiers of the winning `DELETE` events (`pendingDeleteItems`). -/
def mergeDelIds {α : Type} (gid : α → String) (E : List (PendingRec α)) : List String :=
  ((mergeWinners gid E).filter (fun e => e.type = ChangeType.DELETE)).map
    (fun e => gid e.item)

/-- The object `newItemsDict`, seeded from `_.keyBy(layerItems, gid)` and
spread-overwritten by `_.keyBy(pendingSetItems, gid)`. -/
def mergeDict {α : Type} (gid : α → String) (S : List α) (E : List (PendingRec α)) :
    List (String × α) :=
  ((mergeSetItems gid E).map (fun x => (gid x, x))).foldl upsertA (keyByAll gid [] S)

/-- The merge engine `Layer.merge(layerItems, pendingEvents)`: seed a dictionary from the
snapshot, overwrite with the winning upserts, drop the deleted identifiers
(the deletion filter only runs when the deletion set is non-empty, exactly as
in the source), and return the dictionary's values. -/
def merge {α : Type} (gid : α → String) (S : List α) (E : List (PendingRec α)) :
    List α :=
  let dict := mergeDict gid S E
  let del := mergeDelIds gid E
  if del ≠ [] then
    (dict.filter (fun kv => kv.1 ∉ del)).map (fun kv => kv.2)
  else
    dict.map (fun kv => kv.2)

/-- First-match lookup in an association list (JS property access on the
modelled object). -/
def alookup {α : Type} : List (String × α) → String → Option α
  | [], _ => none
  | (k', v) :: rest, k => if k' = k then some v else alookup rest k

/-- The last element of `l` whose identifier is `k`. -/
def lookupLast {α : Type} (gid : α → String) : List α → String → Option α
  | [], _ => none
  | x :: xs, k =>
      match lookupLast gid xs k with
      | some v => some v
      | none => if gid x = k then some x else none

/-- The value of the last pair with key `k`. -/
def lookupLastP {α : Type} : List (String × α) → String → Option α
  | [], _ => none
  | kv :: rest, k =>
      match lookupLastP rest k with
      | some v => some v
      | none => if kv.1 = k then some kv.2 else none

/-- The item payload used throughout the layer model: a unique identifier and
the item's own monotonic version (`item.__ts`, assigned by the source store's
optimistic concurrency). -/
structure LItem where
  id : String
  version : Int
deriving DecidableEq, Repr

/-- The layer's `getItemUniqueIdentifier` configuration, instantiated as the
`id` projection. -/
def lid : LItem → String := LItem.id

/-- The function `merge` instantiated at the layer's item type. -/
def mergeL : List LItem → List (PendingRec LItem) → List LItem := merge lid

/-! ### Partition key derivation (`resolvePartition`, `src/layer.ts:462-464`) -/

/-- JS `String.startsWith` / DynamoDB `begins_with`, implemented structurally
on the character lists so that it evaluates in the kernel. -/
def strIsPrefixOf (p s : String) : Bool :=
  p.data.isPrefixOf s.data

/-- lodash `_.trim(s)`: strip leading and trailing whitespace (implemented
structurally on the character list so that it evaluates in the kernel). -/
def trimStr (s : String) : String :=
  ⟨((s.data.dropWhile Char.isWhitespace).reverse.dropWhile Char.isWhitespace).reverse⟩

/-- JS `Array.prototype.join(sep)`. -/
def joinSep (sep : String) : List String → String
  | [] => ""
  | [x] => x
  | x :: y :: xs => x ++ sep ++ joinSep sep (y :: xs)

/-- Remove the first occurrence of the pattern from a character list — the
semantics of JS `String.replace(pattern, '')` with a string pattern. -/
def removeFirstChars (pat : List Char) : List Char → List Char
  | [] => []
  | c :: rest =>
      if pat.isPrefixOf (c :: rest) then (c :: rest).drop pat.length
      else c :: removeFirstChars pat rest

/-- JS `s.replace(pat, '')`: drop the first (leftmost) occurrence of `pat`. -/
def removeFirstStr (pat s : String) : String :=
  ⟨removeFirstChars pat.data s.data⟩

/-- The resolver `Layer.resolvePartition(cursor, partition)`:
`_.compact([this.table, _.trim(partition), cursor.toString()]).join('#')`. -/
def resolvePartition (table : String) (cursor : Int) (partition : String) : String :=
  joinSep "#" (([table, trimStr partition, toString cursor]).filter (fun seg => seg ≠ ""))

/-- The cursor-stripped key that `Layer.get` passes to the external `getter`
(`src/layer.ts:307-308`): the generation's physical key with the first
occurrence of `"#" ++ cursor` removed; `Layer.sync` applies the same
`replace` to each queried group key (`src/layer.ts:563`). -/
def strippedGetKey (table : String) (cursor : Int) (partition : String) : String :=
  removeFirstStr ("#" ++ toString cursor) (resolvePartition table cursor partition)

/-! ### The meta/metrics register (`Layer.meta`, `src/layer.ts:138-285`) -/

/-- The persisted singleton meta record (`Layer.Meta` without the
process-local `loaded` flag; missing numeric attributes are modelled as `0`,
which is extensionally the behaviour of DynamoDB `ADD` on absent attributes
and of comparisons against them). -/
structure MetaRec where
  cursor : Int
  cursorMax : Int
  syncedLastTotal : Int
  syncedTimes : Int
  syncedTotal : Int
  unsyncedLastTotal : Int
  unsyncedTotal : Int
deriving DecidableEq, Repr

/-- The default `DEFAULT_CURRENT_META` (`src/layer.ts:34-43`), persisted part. -/
def metaZero : MetaRec :=
  { cursor := 0, cursorMax := 0, syncedLastTotal := 0, syncedTimes := 0
    syncedTotal := 0, unsyncedLastTotal := 0, unsyncedTotal := 0 }

/-- Errors surfaced by the layer model. `storeFault` stands for an arbitrary
non-conditional error raised by the underlying store, `setterFailed` for an
error thrown by the external `setter` collaborator. -/
inductive LayerErr where
  | bothTotals
  | noUniqueIdentifier
  | setterFailed (code : Nat)
  | storeFault (code : Nat)
deriving DecidableEq, Repr

/-- One `Layer.meta(set)` mutation against the persisted record:
validation (`syncedTotal` and `unsyncedTotal` must not both be positive), the
conditional cursor `ADD` (allow `-1` only when the stored cursor is `≥ 1`,
allow `+1` unconditionally; on a failed condition the
`ConditionalCheckFailedException` is swallowed and the record is left
unchanged), the `ADD`/`SET` clauses of the synced and unsynced counter
families, and the upsert against a missing record. Returns the new persisted
record state. -/
def metaUpdate (rec? : Option MetaRec) (ac st ut : Int) :
    Except LayerErr (Option MetaRec) :=
  if st > 0 ∧ ut > 0 then .error .bothTotals
  else
    let base := rec?.getD metaZero
    if ac ≠ 0 ∧ ¬((ac = -1 ∧ 1 ≤ base.cursor) ∨ ac = 1) then
      -- ConditionalCheckFailedException: caught, cached meta returned, record untouched
      .ok rec?
    else
      let r1 :=
        if ac ≠ 0 then
          { base with cursor := base.cursor + ac, cursorMax := base.cursorMax + max 0 ac }
        else base
      let r2 :=
        if st > 0 then
          { r1 with
              syncedTimes := r1.syncedTimes + 1
              syncedTotal := r1.syncedTotal + st
              syncedLastTotal := st
              unsyncedLastTotal := 0
              unsyncedTotal := 0 }
        else if ut > 0 then
          { r1 with unsyncedTotal := r1.unsyncedTotal + ut, unsyncedLastTotal := ut }
        else r1
      .ok (some r2)

/-! ### Layer state and the lease lock (`Layer.acquireLock`, `src/layer.ts:323-351`) -/

/-- The constant `LOCK_TTL_IN_SECONDS` (`src/layer.ts:33`). -/
def LOCK_TTL_SECONDS : Int := 5 * 60

/-- The shared mutable state the layer operates on: the persisted meta
record, the lease record (`__lock__`, holding its acquisition `__ts`), and
the pending-event store. The in-memory `currentMeta` cache is the loaded
view of `metaRec` (single-process coherence). -/
structure LayerState where
  metaRec : Option MetaRec
  lock : Option Int
  pendingStore : List (PendingRec LItem)
deriving DecidableEq, Repr

/-- The layer's configuration and external collaborators: logical table
name, wall clock, the snapshot `getter`/`setter`, the item partition
derivation, the per-item TTL, the optional `syncStrategy`, whether a
`backgroundRunner` is configured, and an oracle for an arbitrary store
error raised by the lock's conditional update. -/
structure Env where
  table : String
  now : Int
  getter : String → List LItem
  setter : String → List LItem → Except LayerErr Unit
  getPart : LItem → String
  ttlOf : LItem → Int
  strategy : Option (MetaRec → Bool)
  background : Bool
  lockFault : Option LayerErr

/-- The cursor of the (possibly absent) persisted meta record, as read by
`this.meta()`. -/
def cursorOf (s : LayerState) : Int :=
  (s.metaRec.getD metaZero).cursor

/-- Acquisition `Layer.acquireLock(true)`: a conditional write of the lease timestamp
guarded by `attribute_not_exists(#__ts) OR #__ts < now - TTL*1000`; a bare
`catch` swallows every error (conditional-check failure or any other store
fault, injected here through `env.lockFault`) and reports `false`. -/
def acquireLockT (env : Env) (s : LayerState) : Bool × LayerState :=
  match env.lockFault with
  | some _ => (false, s)
  | none =>
      match s.lock with
      | some ts =>
          if ts < env.now - LOCK_TTL_SECONDS * 1000 then
            (true, { s with lock := some env.now })
          else (false, s)
      | none => (true, { s with lock := some env.now })

/-- Release `Layer.acquireLock(false)`: unconditional delete of the lease record. -/
def releaseLock (s : LayerState) : LayerState :=
  { s with lock := none }

/-! ### The sync orchestrator (`Layer.sync`, `src/layer.ts:523-593`) -/

/-- The `{count, locked}` result of `sync` and `reset`. -/
structure SyncRes where
  count : Nat
  locked : Bool
deriving DecidableEq, Repr

/-- The pending events of the retiring generation, as returned by the
`cursor-index` query (`item: {cursor, pk: table}, prefix: true`): partition
key equal to the retired cursor, sort key `pk` beginning with the logical
table name. -/
def syncPending (env : Env) (s : LayerState) (cursor : Int) : List (PendingRec LItem) :=
  s.pendingStore.filter (fun r => r.cursor = cursor ∧ strIsPrefixOf env.table r.pk)

/-- The queried events grouped by physical partition key (`_.groupBy(items,
'pk')` accumulated across chunks). -/
def syncGroups (env : Env) (s : LayerState) (cursor : Int) :
    List (String × List (PendingRec LItem)) :=
  groupByKey (fun r => r.pk) (syncPending env s cursor)

/-- The per-partition loop of `sync`: derive the cursor-stripped key, load
the snapshot through `getter`, `merge`, and save through `setter`; the first
`setter` error aborts the loop and is returned. -/
def syncProcess (env : Env) (cursor : Int) :
    List (String × List (PendingRec LItem)) → Except LayerErr Unit
  | [] => .ok ()
  | (pk, evs) :: rest =>
      let pkw := removeFirstStr ("#" ++ toString cursor) pk
      match env.setter pkw (mergeL (env.getter pkw) evs) with
      | .ok _ => syncProcess env cursor rest
      | .error e => .error e

/-- The orchestrator `Layer.sync()`: acquire the lease (contention → `{count: 0, locked:
true}`), read the cursor, advance it by `+1`, drain the retiring
generation's events grouped by partition, fold each group into the external
store, then either commit `{syncedTotal: count}` or roll the cursor back by
`-1` and re-raise; the lease is always released (`finally`). -/
def sync (env : Env) (s : LayerState) : Except LayerErr SyncRes × LayerState :=
  match acquireLockT env s with
  | (false, s') => (.ok ⟨0, true⟩, s')
  | (true, s1) =>
      let cursor := cursorOf s1
      match metaUpdate s1.metaRec 1 0 0 with
      | .error e => (.error e, releaseLock s1)
      | .ok m1 =>
          let s2 : LayerState := { s1 with metaRec := m1 }
          let count := (syncPending env s2 cursor).length
          match syncProcess env cursor (syncGroups env s2 cursor) with
          | .error e =>
              -- "if there is an error, we need to rollback the cursor"
              match metaUpdate s2.metaRec (-1) 0 0 with
              | .ok m2 => (.error e, releaseLock { s2 with metaRec := m2 })
              | .error e2 => (.error e2, releaseLock s2)
          | .ok _ =>
              match metaUpdate s2.metaRec 0 (Int.ofNat count) 0 with
              | .ok m3 => (.ok ⟨count, false⟩, releaseLock { s2 with metaRec := m3 })
              | .error e => (.error e, releaseLock s2)

/-! ### Event ingestion (`Layer.set`, `src/layer.ts:466-521`) -/

/-- A reported change, `Dynamodb.ChangeEvent`. -/
structure ChangeEv where
  item : LItem
  type : ChangeType
deriving DecidableEq, Repr

/-- The store mutations and sync triggers performed by `set`, in order. -/
inductive Op where
  | metaDelta (ac st ut : Int)
  | persistEvents (n : Nat)
  | syncTriggered
deriving DecidableEq, Repr

/-- The eager `_.map` of `set` building the pending events: per event the
physical key, the unique identifier (`throw` on an empty one, aborting the
whole call before any store mutation), the TTL, and the change type; the
record `ts` is the `__ts` later stamped by `db.batchWrite`. -/
def buildWriteEvents (env : Env) (cursor : Int) :
    List ChangeEv → Except LayerErr (List (PendingRec LItem))
  | [] => .ok []
  | ev :: rest =>
      let pk := resolvePartition env.table cursor (env.getPart ev.item)
      let sk := lid ev.item
      if sk = "" then .error .noUniqueIdentifier
      else
        match buildWriteEvents env cursor rest with
        | .ok tail =>
            .ok ({ cursor := cursor, item := ev.item, pk := pk, sk := sk
                   ttl := env.now / 1000 + env.ttlOf ev.item, type := ev.type
                   ts := env.now } :: tail)
        | .error e => .error e

/-- Ingestion `Layer.set(events, cursor?)`: no-op on an empty batch; build the pending
events (fail fast on a missing identifier); apply the meta delta
`{advanceCursor: 0, unsyncedTotal: batchSize}`; if the configured
`syncStrategy` returns true on the resulting meta, trigger `sync` — submitted
to the `backgroundRunner` when one is configured (its effects happen
out-of-band), awaited inline otherwise (an inline sync error propagates) —
and only then `db.batchWrite` the pending events. Returns the call's
outcome, the final state, and the ordered trace of mutations/triggers. -/
def setOp (env : Env) (s : LayerState) (events : List ChangeEv)
    (cursorArg : Option Int) : Except LayerErr Unit × LayerState × List Op :=
  if events = [] then (.ok (), s, [])
  else
    let cursor := cursorArg.getD (cursorOf s)
    match buildWriteEvents env cursor events with
    | .error e => (.error e, s, [])
    | .ok writeEvents =>
        let n : Int := Int.ofNat writeEvents.length
        match metaUpdate s.metaRec 0 0 n with
        | .error e => (.error e, s, [])
        | .ok m1 =>
            let s1 : LayerState := { s with metaRec := m1 }
            let view := m1.getD metaZero
            let tr1 := [Op.metaDelta 0 0 n]
            let fire := match env.strategy with
              | some f => f view
              | none => false
            if fire then
              if env.background then
                (.ok (),
                  { s1 with pendingStore := s1.pendingStore ++ writeEvents },
                  tr1 ++ [Op.syncTriggered, Op.persistEvents writeEvents.length])
              else
                match sync env s1 with
                | (.error e, s2) => (.error e, s2, tr1 ++ [Op.syncTriggered])
                | (.ok _, s2) =>
                    (.ok (),
                      { s2 with pendingStore := s2.pendingStore ++ writeEvents },
                      tr1 ++ [Op.syncTriggered, Op.persistEvents writeEvents.length])
            else
              (.ok (),
                { s1 with pendingStore := s1.pendingStore ++ writeEvents },
                tr1 ++ [Op.persistEvents writeEvents.length])

/-! ### The reset orchestrator (`Layer.reset`, `src/layer.ts:391-450`) -/

/-- The rebuild groups of `reset`: scan the authoritative source, skip items
outside the requested sub-partition scope, and group the rest under
`resolvePartition(0, itemPartition)` (the cursor was reset to 0). -/
def resetGroups (env : Env) (partition : Option String) (src : List LItem) :
    List (String × List LItem) :=
  src.foldl
    (fun acc item =>
      let ip := env.getPart item
      match partition with
      | some p => if ip ≠ p then acc else addGroup acc (resolvePartition env.table 0 ip) item
      | none => addGroup acc (resolvePartition env.table 0 ip) item)
    []

/-- The seeding loop of `reset`: `setter(pk.replace('#0', ''), items)` per
group; the first error propagates. -/
def resetProcess (env : Env) : List (String × List LItem) → Except LayerErr Unit
  | [] => .ok ()
  | (pk, items) :: rest =>
      match env.setter (removeFirstStr "#0" pk) items with
      | .ok _ => resetProcess env rest
      | .error e => .error e

/-- The orchestrator `Layer.reset(db, partition?)`: acquire the lease (contention →
`{count: 0, locked: true}`), batch-delete every pending event whose key
begins with the scope prefix, wipe the meta record, re-scan the source and
seed fresh snapshots per partition; the lease is always released. -/
def reset (env : Env) (src : List LItem) (partition : Option String)
    (s : LayerState) : Except LayerErr SyncRes × LayerState :=
  match acquireLockT env s with
  | (false, s') => (.ok ⟨0, true⟩, s')
  | (true, s1) =>
      let pfx := match partition with
        | some p => env.table ++ "#" ++ p
        | none => env.table
      let s2 : LayerState :=
        { s1 with pendingStore := s1.pendingStore.filter (fun r => ¬ strIsPrefixOf pfx r.pk) }
      let s3 : LayerState := { s2 with metaRec := none }
      match resetProcess env (resetGroups env partition src) with
      | .error e => (.error e, releaseLock s3)
      | .ok _ => (.ok ⟨src.length, false⟩, releaseLock s3)

/-- One `meta({advanceCursor: d, syncedTotal: 0, unsyncedTotal: 0})` call
against the persisted record; a conditional-check failure leaves the record
unchanged (`meta` returns the cached copy instead of raising). The delta
calls of this shape never raise, so the error branch is vacuous. -/
def cursorStep (r : Option MetaRec) (d : Int) : Option MetaRec :=
  match metaUpdate r d 0 0 with
  | .ok r' => r'
  | .error _ => r

/-- A sequence of cursor-delta `meta` calls starting from the zero-value
(absent) persisted record. -/
def runCursorDeltas (ds : List Int) : Option MetaRec :=
  ds.foldl cursorStep none

/-! ### Concrete instances used in closed checks -/

/-- An upsert event on `"a"` carrying item version 2, written late
(event-record `__ts` 10). -/
def evPutA2 : PendingRec LItem :=
  { cursor := 0, item := ⟨"a", 2⟩, pk := "t#0", sk := "a", ttl := 0
    type := ChangeType.PUT, ts := 10 }

/-- An upsert event on `"a"` carrying item version 5, written early
(event-record `__ts` 1). -/
def evPutA5 : PendingRec LItem :=
  { cursor := 0, item := ⟨"a", 5⟩, pk := "t#0", sk := "a", ttl := 0
    type := ChangeType.PUT, ts := 1 }

/-- A `DELETE` event on identifier `"a"`. -/
def evDelA : PendingRec LItem :=
  { cursor := 0, item := ⟨"a", 9⟩, pk := "t#0", sk := "a", ttl := 0
    type := ChangeType.DELETE, ts := 99 }

/-- A benign environment: empty snapshots, always-succeeding `setter`, no
sync strategy, no background runner, a healthy store. -/
def envOk : Env :=
  { table := "t", now := 10000000, getter := fun _ => []
    setter := fun _ _ => .ok (), getPart := fun _ => ""
    ttlOf := fun _ => 432000, strategy := none, background := false
    lockFault := none }

/-- Environment `envOk` with a `setter` that always throws. -/
def envSetterFails : Env :=
  { envOk with setter := fun _ _ => .error (.setterFailed 7) }

/-- Environment `envOk` with the lock's conditional update raising an arbitrary
(non-conditional) store error. -/
def envFault : Env :=
  { envOk with lockFault := some (.storeFault 3) }

/-- A pending `PUT` event for identifier `"a"` at cursor 0 in partition
`"t#0"`. -/
def evPending : PendingRec LItem :=
  { cursor := 0, item := ⟨"a", 1⟩, pk := "t#0", sk := "a", ttl := 0
    type := ChangeType.PUT, ts := 5 }

/-- An unlocked layer state holding one pending event at cursor 0 and no meta
record yet. -/
def stateOneEvent : LayerState :=
  { metaRec := none, lock := none, pendingStore := [evPending] }

/-- An empty, unlocked layer state. -/
def stateEmpty : LayerState :=
  { metaRec := none, lock := none, pendingStore := [] }

/-- A valid change event. -/
def evChange : ChangeEv := { item := ⟨"a", 1⟩, type := ChangeType.PUT }

/-- A change event whose item has an empty unique identifier. -/
def evChangeBad : ChangeEv := { item := ⟨"", 3⟩, type := ChangeType.PUT }

/-! ## Lemmas about the association-list primitives -/

theorem alookup_upsertA {α : Type} (d : List (String × α)) (kv : String × α) (k : String) :
    alookup (upsertA d kv) k = if kv.1 = k then some kv.2 else alookup d k := by
  obtain ⟨a, b⟩ := kv
  induction d with
  | nil => simp [upsertA, alookup]
  | cons hd tl ih =>
      obtain ⟨k', v⟩ := hd
      simp only [upsertA]
      by_cases h : k' = a
      · rw [if_pos h]
        by_cases hk : a = k
        · simp [alookup, hk]
        · have hk' : ¬ k' = k := fun he => hk (h.symm.trans he)
          simp [alookup, hk, hk']
      · rw [if_neg h]
        by_cases hk : k' = k
        · have ha : ¬ a = k := fun he => h (hk.trans he.symm)
          simp [alookup, hk, ha]
        · simp [alookup, hk, ih]

theorem alookup_foldl_upsertA {α : Type} (pairs : List (String × α))
    (d : List (String × α)) (k : String) :
    alookup (pairs.foldl upsertA d) k =
      match lookupLastP pairs k with
      | some v => some v
      | none => alookup d k := by
  induction pairs generalizing d with
  | nil => simp [lookupLastP]
  | cons kv rest ih =>
      simp only [List.foldl_cons, lookupLastP]
      rw [ih]
      cases h : lookupLastP rest k with
      | some v => simp
      | none =>
          rw [alookup_upsertA]
          by_cases hk : kv.1 = k <;> simp [hk]

theorem lookupLastP_map_pair {α : Type} (gid : α → String) (l : List α) (k : String) :
    lookupLastP (l.map (fun x => (gid x, x))) k = lookupLast gid l k := by
  induction l with
  | nil => rfl
  | cons x xs ih => simp only [List.map_cons, lookupLastP, lookupLast, ih]

theorem lookupLast_append {α : Type} (gid : α → String) (A B : List α) (k : String) :
    lookupLast gid (A ++ B) k =
      match lookupLast gid B k with
      | some v => some v
      | none => lookupLast gid A k := by
  induction A with
  | nil => cases h : lookupLast gid B k <;> simp [lookupLast, h]
  | cons x xs ih =>
      simp only [List.cons_append, lookupLast, List.append_eq]
      rw [ih]
      cases h : lookupLast gid B k with
      | some v => simp
      | none => cases h' : lookupLast gid xs k <;> simp [h']

theorem lookupLast_eq_some {α : Type} {gid : α → String} {l : List α} {k : String}
    {x : α} (h : lookupLast gid l k = some x) : x ∈ l ∧ gid x = k := by
  induction l with
  | nil => simp [lookupLast] at h
  | cons y ys ih =>
      simp only [lookupLast] at h
      cases h' : lookupLast gid ys k with
      | some v =>
          rw [h'] at h
          obtain ⟨hv, hk⟩ := ih (h' ▸ congrArg some (Option.some_injective _ h))
          exact ⟨List.mem_cons_of_mem _ hv, hk⟩
      | none =>
          rw [h'] at h
          by_cases hy : gid y = k
          · simp [hy] at h
            exact ⟨by simp [h], h ▸ hy⟩
          · simp [hy] at h

theorem lookupLast_eq_none_of_not_mem {α : Type} {gid : α → String} {l : List α}
    {k : String} (h : k ∉ l.map gid) : lookupLast gid l k = none := by
  induction l with
  | nil => rfl
  | cons y ys ih =>
      simp only [List.map_cons, List.mem_cons] at h
      push_neg at h
      simp only [lookupLast, ih h.2]
      simp [Ne.symm h.1]

theorem lookupLast_of_mem_nodup {α : Type} {gid : α → String} {l : List α}
    (nd : (l.map gid).Nodup) {x : α} (hx : x ∈ l) :
    lookupLast gid l (gid x) = some x := by
  induction l with
  | nil => simp at hx
  | cons y ys ih =>
      simp only [List.map_cons, List.nodup_cons] at nd
      rcases List.mem_cons.mp hx with rfl | hmem
      · have : lookupLast gid ys (gid x) = none :=
          lookupLast_eq_none_of_not_mem nd.1
        simp [lookupLast, this]
      · simp only [lookupLast, ih nd.2 hmem]

theorem alookup_eq_some_mem {α : Type} {d : List (String × α)} {k : String} {v : α}
    (h : alookup d k = some v) : (k, v) ∈ d := by
  induction d with
  | nil => simp [alookup] at h
  | cons hd tl ih =>
      obtain ⟨k', w⟩ := hd
      simp only [alookup] at h
      by_cases hk : k' = k
      · rw [if_pos hk] at h
        subst hk
        simp at h
        simp [h]
      · rw [if_neg hk] at h
        exact List.mem_cons_of_mem _ (ih h)

theorem mem_alookup_of_nodup {α : Type} {d : List (String × α)}
    (nd : (d.map Prod.fst).Nodup) {k : String} {v : α} (h : (k, v) ∈ d) :
    alookup d k = some v := by
  induction d with
  | nil => simp at h
  | cons hd tl ih =>
      obtain ⟨k', w⟩ := hd
      simp only [List.map_cons, List.nodup_cons] at nd
      rcases List.mem_cons.mp h with heq | hmem
      · cases heq
        simp [alookup]
      · have hk : ¬ k' = k := by
          rintro rfl
          exact nd.1 (List.mem_map.mpr ⟨(k', v), hmem, rfl⟩)
        simp only [alookup, if_neg hk]
        exact ih nd.2 hmem

/-- Every key occurring in `upsertA d kv` occurs in `d` or is `kv`'s key. -/
theorem mem_keys_upsertA {α : Type} {d : List (String × α)} {kv : String × α}
    {k : String} (h : k ∈ (upsertA d kv).map Prod.fst) :
    k = kv.1 ∨ k ∈ d.map Prod.fst := by
  induction d with
  | nil => simp [upsertA] at h; simp [h]
  | cons hd tl ih =>
      obtain ⟨k', v⟩ := hd
      simp only [upsertA] at h
      by_cases hk : k' = kv.1
      · rw [if_pos hk] at h
        simp only [List.map_cons, List.mem_cons] at h
        rcases h with h | h
        · exact Or.inl h
        · exact Or.inr (List.mem_cons_of_mem _ h)
      · rw [if_neg hk] at h
        simp only [List.map_cons, List.mem_cons] at h ⊢
        rcases h with h | h
        · exact Or.inr (Or.inl h)
        · rcases ih h with h' | h'
          · exact Or.inl h'
          · exact Or.inr (Or.inr h')

theorem nodup_keys_upsertA {α : Type} {d : List (String × α)}
    (nd : (d.map Prod.fst).Nodup) (kv : String × α) :
    ((upsertA d kv).map Prod.fst).Nodup := by
  induction d with
  | nil => simp [upsertA]
  | cons hd tl ih =>
      obtain ⟨k', v⟩ := hd
      simp only [List.map_cons, List.nodup_cons] at nd
      simp only [upsertA]
      by_cases hk : k' = kv.1
      · rw [if_pos hk]
        simp only [List.map_cons, List.nodup_cons]
        exact ⟨hk ▸ nd.1, nd.2⟩
      · rw [if_neg hk]
        simp only [List.map_cons, List.nodup_cons]
        constructor
        · intro hmem
          rcases mem_keys_upsertA hmem with h | h
          · exact hk h
          · exact nd.1 h
        · exact ih nd.2

theorem nodup_keys_foldl_upsertA {α : Type} (pairs : List (String × α))
    {d : List (String × α)} (nd : (d.map Prod.fst).Nodup) :
    ((pairs.foldl upsertA d).map Prod.fst).Nodup := by
  induction pairs generalizing d with
  | nil => exact nd
  | cons kv rest ih => exact ih (nodup_keys_upsertA nd kv)

/-- Entries inserted through `upsertA` keep the keying invariant
`key = gid value`. -/
theorem good_upsertA {α : Type} {gid : α → String} {d : List (String × α)}
    (hd : ∀ p ∈ d, p.1 = gid p.2) {kv : String × α} (hkv : kv.1 = gid kv.2) :
    ∀ p ∈ upsertA d kv, p.1 = gid p.2 := by
  induction d with
  | nil =>
      simp only [upsertA]
      intro p hp
      rw [List.mem_singleton] at hp
      subst hp
      exact hkv
  | cons hd0 tl ih =>
      obtain ⟨k', v⟩ := hd0
      simp only [upsertA]
      by_cases hk : k' = kv.1
      · rw [if_pos hk]
        intro p hp
        rcases List.mem_cons.mp hp with rfl | hp'
        · exact hkv
        · exact hd _ (List.mem_cons_of_mem _ hp')
      · rw [if_neg hk]
        intro p hp
        rcases List.mem_cons.mp hp with rfl | hp'
        · exact hd _ (List.mem_cons_self _ _)
        · exact ih (fun q hq => hd q (List.mem_cons_of_mem _ hq)) p hp'

theorem good_foldl_upsertA {α : Type} {gid : α → String} (pairs : List (String × α))
    {d : List (String × α)} (hd : ∀ p ∈ d, p.1 = gid p.2)
    (hpairs : ∀ p ∈ pairs, p.1 = gid p.2) :
    ∀ p ∈ pairs.foldl upsertA d, p.1 = gid p.2 := by
  induction pairs generalizing d with
  | nil => exact hd
  | cons kv rest ih =>
      exact ih (good_upsertA hd (hpairs kv (List.mem_cons_self _ _)))
        (fun q hq => hpairs q (List.mem_cons_of_mem _ hq))

/-! ## Characterization of the merge engine -/

theorem alookup_keyByAll {α : Type} (gid : α → String) (S : List α) (k : String) :
    alookup (keyByAll gid [] S) k = lookupLast gid S k := by
  unfold keyByAll
  rw [alookup_foldl_upsertA, lookupLastP_map_pair]
  cases h : lookupLast gid S k <;> simp [alookup]

/-- Lookup in `newItemsDict` is last-write-wins over the concatenation of the
snapshot and the winning upsert items. -/
theorem alookup_mergeDict {α : Type} (gid : α → String) (S : List α)
    (E : List (PendingRec α)) (k : String) :
    alookup (mergeDict gid S E) k = lookupLast gid (S ++ mergeSetItems gid E) k := by
  unfold mergeDict
  rw [alookup_foldl_upsertA, lookupLastP_map_pair, alookup_keyByAll, lookupLast_append]

theorem nodup_keys_mergeDict {α : Type} (gid : α → String) (S : List α)
    (E : List (PendingRec α)) : ((mergeDict gid S E).map Prod.fst).Nodup := by
  unfold mergeDict keyByAll
  exact nodup_keys_foldl_upsertA _ (nodup_keys_foldl_upsertA _ (by simp))

theorem good_mergeDict {α : Type} (gid : α → String) (S : List α)
    (E : List (PendingRec α)) : ∀ p ∈ mergeDict gid S E, p.1 = gid p.2 := by
  unfold mergeDict keyByAll
  apply good_foldl_upsertA
  · apply good_foldl_upsertA
    · simp
    · intro p hp
      obtain ⟨x, _, rfl⟩ := List.mem_map.mp hp
      rfl
  · intro p hp
    obtain ⟨x, _, rfl⟩ := List.mem_map.mp hp
    rfl

theorem mem_map_snd_iff_alookup {α : Type} {gid : α → String} {d : List (String × α)}
    (nd : (d.map Prod.fst).Nodup) (good : ∀ p ∈ d, p.1 = gid p.2) (x : α) :
    x ∈ d.map Prod.snd ↔ alookup d (gid x) = some x := by
  constructor
  · intro hx
    obtain ⟨⟨k, v⟩, hp, rfl⟩ := List.mem_map.mp hx
    have hk : k = gid v := good _ hp
    have hl := mem_alookup_of_nodup nd hp
    rw [hk] at hl
    exact hl
  · intro h
    exact List.mem_map.mpr ⟨(gid x, x), alookup_eq_some_mem h, rfl⟩

/-- Membership in `Layer.merge`: `x` is in the result exactly when it is the
last write for its identifier among snapshot-then-winning-upserts, and its
identifier is not deleted. -/
theorem mem_merge_iff {α : Type} (gid : α → String) (S : List α)
    (E : List (PendingRec α)) (x : α) :
    x ∈ merge gid S E ↔
      (lookupLast gid (S ++ mergeSetItems gid E) (gid x) = some x ∧
        gid x ∉ mergeDelIds gid E) := by
  unfold merge
  by_cases hdel : mergeDelIds gid E ≠ []
  · rw [if_pos hdel]
    constructor
    · intro hx
      obtain ⟨⟨k, v⟩, hp, rfl⟩ := List.mem_map.mp hx
      have hpd := List.mem_filter.mp hp
      have hk : k = gid v := good_mergeDict gid S E _ hpd.1
      have hl := mem_alookup_of_nodup (nodup_keys_mergeDict gid S E) hpd.1
      rw [hk] at hl
      rw [← alookup_mergeDict]
      refine ⟨hl, ?_⟩
      have hnd : k ∉ mergeDelIds gid E := of_decide_eq_true hpd.2
      rwa [hk] at hnd
    · rintro ⟨hl, hnd⟩
      rw [← alookup_mergeDict gid S E] at hl
      have hmem := alookup_eq_some_mem hl
      exact List.mem_map.mpr
        ⟨(gid x, x), List.mem_filter.mpr ⟨hmem, decide_eq_true hnd⟩, rfl⟩
  · rw [if_neg hdel]
    push_neg at hdel
    rw [mem_map_snd_iff_alookup (nodup_keys_mergeDict gid S E)
      (good_mergeDict gid S E) x, alookup_mergeDict]
    simp [hdel]

/-- The merge result carries pairwise-distinct identifiers. -/
theorem nodup_ids_merge {α : Type} (gid : α → String) (S : List α)
    (E : List (PendingRec α)) : ((merge gid S E).map gid).Nodup := by
  unfold merge
  have hmap : ∀ d' : List (String × α), (∀ p ∈ d', p.1 = gid p.2) →
      (d'.map Prod.snd).map gid = d'.map Prod.fst := by
    intro d' good
    rw [List.map_map]
    exact List.map_congr_left (fun p hp => (good p hp).symm)
  by_cases hdel : mergeDelIds gid E ≠ []
  · rw [if_pos hdel]
    rw [hmap _ (fun p hp => good_mergeDict gid S E p (List.mem_of_mem_filter hp))]
    exact (nodup_keys_mergeDict gid S E).sublist
      ((List.filter_sublist _).map Prod.fst)
  · rw [if_neg hdel]
    rw [hmap _ (good_mergeDict gid S E)]
    exact nodup_keys_mergeDict gid S E

/-! ## Claims about the merge engine (C2, C6, C7) -/

/-- C6: for every snapshot `S` and every batch of pending events `E`, merge is
idempotent over its snapshot argument: `merge (merge S E) E` equals
`merge S E` as a set of items. -/
theorem c6_merge_idempotent {α : Type} (gid : α → String) (S : List α)
    (E : List (PendingRec α)) (x : α) :
    x ∈ merge gid (merge gid S E) E ↔ x ∈ merge gid S E := by
  rw [mem_merge_iff, mem_merge_iff, lookupLast_append, lookupLast_append]
  cases hset : lookupLast gid (mergeSetItems gid E) (gid x) with
  | some w => simp
  | none =>
      constructor
      · rintro ⟨hl, hnd⟩
        have hx := lookupLast_eq_some hl
        have hmem := (mem_merge_iff gid S E x).mp hx.1
        simp only [lookupLast_append, hset] at hmem
        exact ⟨hmem.1, hnd⟩
      · rintro ⟨hl, hnd⟩
        have hx : x ∈ merge gid S E := by
          rw [mem_merge_iff, lookupLast_append, hset]
          exact ⟨hl, hnd⟩
        exact ⟨lookupLast_of_mem_nodup (nodup_ids_merge gid S E) hx, hnd⟩

/-- C7: a winning `DELETE` event for identifier `a` removes `a` from the merge
result regardless of the snapshot item (even with no upsert for `a`), and a
`DELETE` event for an identifier absent from the snapshot is a no-op. -/
theorem c7_delete_suppression {α : Type} (gid : α → String) (S : List α)
    (E : List (PendingRec α)) (e : PendingRec α) (a : String) :
    (a ∈ mergeDelIds gid E → ∀ x ∈ merge gid S E, gid x ≠ a) ∧
    (e.type = ChangeType.DELETE → gid e.item = a → (∀ y ∈ S, gid y ≠ a) →
      ∀ x, x ∈ merge gid S [e] ↔ x ∈ merge gid S []) := by
  constructor
  · intro hdel x hx heq
    exact ((mem_merge_iff gid S E x).mp hx).2 (heq ▸ hdel)
  · intro hty ha hS x
    have hw : mergeWinners gid [e] = [e] := rfl
    have hset : mergeSetItems gid [e] = [] := by
      simp [mergeSetItems, hw, List.filter, hty]
    have hdel : mergeDelIds gid [e] = [a] := by
      simp [mergeDelIds, hw, List.filter, hty, ha]
    have hset0 : mergeSetItems gid ([] : List (PendingRec α)) = [] := rfl
    have hdel0 : mergeDelIds gid ([] : List (PendingRec α)) = [] := rfl
    rw [mem_merge_iff, mem_merge_iff, hset, hdel, hset0, hdel0, List.append_nil]
    constructor
    · rintro ⟨hl, -⟩
      exact ⟨hl, by simp⟩
    · rintro ⟨hl, -⟩
      refine ⟨hl, ?_⟩
      have hx := lookupLast_eq_some hl
      simp only [List.mem_singleton]
      exact hS x hx.1

/-- C7 witness: with snapshot `[a@1, b@2]` a winning `DELETE` on `"a"`
suppresses `"a"` (the surviving member `b@2` has a different identifier), and
against the snapshot `[b@2]` — which does not contain `"a"` — the single
`DELETE` on `"a"` is a membership no-op. -/
theorem c7_delete_suppression_witness :
    (lid ⟨"b", 2⟩ ≠ "a") ∧
    ((⟨"b", 2⟩ : LItem) ∈ merge lid [⟨"b", 2⟩] [evDelA] ↔
      (⟨"b", 2⟩ : LItem) ∈ merge lid [⟨"b", 2⟩] []) :=
  ⟨(c7_delete_suppression lid [⟨"a", 1⟩, ⟨"b", 2⟩] [evDelA] evDelA "a").1
      (by decide) ⟨"b", 2⟩ (by decide),
    (c7_delete_suppression lid [⟨"b", 2⟩] [evDelA] evDelA "a").2
      (by decide) (by decide) (by decide) ⟨"b", 2⟩⟩

/-- C2 counterexample: `merge` selects the winner by the event record's
`__ts`, not by the item's version. With `evPutA2` (item version 2, event
`__ts` 10) and `evPutA5` (item version 5, event `__ts` 1), both supply orders
yield the version-2 item even though the versions satisfy `2 < 5`, whereas
the claim demands the `v2 = 5` item. -/
theorem c2_most_recent_wins_counterexample :
    mergeL [] [evPutA2, evPutA5] = [⟨"a", 2⟩] ∧
    mergeL [] [evPutA5, evPutA2] = [⟨"a", 2⟩] ∧
    ((2 : Int) < 5 ∧ (⟨"a", 2⟩ : LItem) ≠ ⟨"a", 5⟩) := by
  decide

/-- C2 amended: `merge` groups the events by the item's unique identifier
and, within each group, keeps the event whose event-record timestamp
(`__ts`, stamped when the pending event was written) is maximal; for two
events on the same identifier with event timestamps `t1 < t2`, both supply
orders yield the `t2` event's item, so the order is irrelevant whenever the
event timestamps are distinct. -/
theorem c2_most_recent_wins_amended {α : Type} (gid : α → String)
    (e1 e2 : PendingRec α) (hid : gid e1.item = gid e2.item)
    (hts : e1.ts < e2.ts) (hty : e2.type ≠ ChangeType.DELETE) :
    merge gid [] [e1, e2] = [e2.item] ∧ merge gid [] [e2, e1] = [e2.item] := by
  have hmax1 : maxByTs [e1, e2] = some e2 := by
    simp [maxByTs, if_pos hts]
  have hmax2 : maxByTs [e2, e1] = some e2 := by
    have : ¬ e1.ts > e2.ts := by omega
    simp [maxByTs, this]
  have hw1 : mergeWinners gid [e1, e2] = [e2] := by
    simp [mergeWinners, groupByKey, addGroup, hid, hmax1]
  have hw2 : mergeWinners gid [e2, e1] = [e2] := by
    simp [mergeWinners, groupByKey, addGroup, hid.symm, hmax2]
  have hfin : ∀ E : List (PendingRec α), mergeWinners gid E = [e2] →
      merge gid [] E = [e2.item] := by
    intro E hw
    simp [merge, mergeDict, mergeSetItems, mergeDelIds, hw, keyByAll, upsertA,
      List.filter, hty]
  exact ⟨hfin _ hw1, hfin _ hw2⟩

/-- C2 amended, witness: `evPutA5` (event `__ts` 1) and `evPutA2`
(event `__ts` 10) share identifier `"a"`; both orders yield `evPutA2`'s
item. -/
theorem c2_most_recent_wins_amended_witness :
    (lid evPutA5.item = lid evPutA2.item ∧ evPutA5.ts < evPutA2.ts ∧
      evPutA2.type ≠ ChangeType.DELETE) ∧
    (merge lid [] [evPutA5, evPutA2] = [evPutA2.item] ∧
      merge lid [] [evPutA2, evPutA5] = [evPutA2.item]) :=
  ⟨⟨by decide, by decide, by decide⟩,
    c2_most_recent_wins_amended lid evPutA5 evPutA2 (by decide) (by decide)
      (by decide)⟩

/-! ## Claims about the meta register (C3) -/

theorem cursorStep_inv (r : Option MetaRec) (d : Int) (hd : d = 1 ∨ d = -1)
    (h : 0 ≤ (r.getD metaZero).cursor ∧
      (r.getD metaZero).cursor ≤ (r.getD metaZero).cursorMax) :
    0 ≤ ((cursorStep r d).getD metaZero).cursor ∧
      ((cursorStep r d).getD metaZero).cursor ≤
        ((cursorStep r d).getD metaZero).cursorMax := by
  rcases hd with rfl | rfl
  · simp [cursorStep, metaUpdate]
    omega
  · by_cases hc : 1 ≤ (r.getD metaZero).cursor
    · simp [cursorStep, metaUpdate, hc]
      omega
    · simp [cursorStep, metaUpdate, hc]
      omega

theorem cursorStep_max_mono (r : Option MetaRec) (d : Int) :
    (r.getD metaZero).cursorMax ≤ ((cursorStep r d).getD metaZero).cursorMax := by
  by_cases h0 : d = 0
  · simp [cursorStep, metaUpdate, h0]
  · by_cases hc : (d = -1 ∧ 1 ≤ (r.getD metaZero).cursor) ∨ d = 1
    · simp [cursorStep, metaUpdate, h0, hc]
    · simp [cursorStep, metaUpdate, h0, hc]

theorem cursorStep_zero_reject (r : Option MetaRec)
    (h : (r.getD metaZero).cursor = 0) : cursorStep r (-1) = r := by
  simp [cursorStep, metaUpdate, h]

theorem runCursorDeltas_inv (ds : List Int) (h : ∀ d ∈ ds, d = 1 ∨ d = -1) :
    0 ≤ ((runCursorDeltas ds).getD metaZero).cursor ∧
      ((runCursorDeltas ds).getD metaZero).cursor ≤
        ((runCursorDeltas ds).getD metaZero).cursorMax := by
  have aux : ∀ (l : List Int) (r : Option MetaRec),
      (∀ d ∈ l, d = 1 ∨ d = -1) →
      (0 ≤ (r.getD metaZero).cursor ∧
        (r.getD metaZero).cursor ≤ (r.getD metaZero).cursorMax) →
      0 ≤ ((l.foldl cursorStep r).getD metaZero).cursor ∧
        ((l.foldl cursorStep r).getD metaZero).cursor ≤
          ((l.foldl cursorStep r).getD metaZero).cursorMax := by
    intro l
    induction l with
    | nil => intro r _ hr; exact hr
    | cons d l ih =>
        intro r hl hr
        exact ih _ (fun x hx => hl x (List.mem_cons_of_mem _ hx))
          (cursorStep_inv r d (hl d (List.mem_cons_self _ _)) hr)
  exact aux ds none h (by simp [metaZero])

/-- C3: for every sequence of `meta({advanceCursor: ±1, syncedTotal: 0,
unsyncedTotal: 0})` calls starting from the zero-value meta, the persisted
record satisfies `0 ≤ cursor ≤ cursorMax`, `cursorMax` never decreases under
a further delta, and an `advanceCursor: -1` when the cursor is 0 leaves the
record unchanged (rejected by the conditional check). -/
theorem c3_cursor_monotonicity (ds : List Int) (h : ∀ d ∈ ds, d = 1 ∨ d = -1) :
    0 ≤ ((runCursorDeltas ds).getD metaZero).cursor ∧
    ((runCursorDeltas ds).getD metaZero).cursor ≤
      ((runCursorDeltas ds).getD metaZero).cursorMax ∧
    (∀ d : Int, ((runCursorDeltas ds).getD metaZero).cursorMax ≤
      ((cursorStep (runCursorDeltas ds) d).getD metaZero).cursorMax) ∧
    (((runCursorDeltas ds).getD metaZero).cursor = 0 →
      cursorStep (runCursorDeltas ds) (-1) = runCursorDeltas ds) := by
  obtain ⟨h1, h2⟩ := runCursorDeltas_inv ds h
  exact ⟨h1, h2, fun d => cursorStep_max_mono _ d,
    fun hz => cursorStep_zero_reject _ hz⟩

/-- C3 witness: after the delta sequence `[+1, +1, -1]` the record reads
`cursor = 1 ≤ cursorMax = 2`, and a further `-1` does not decrease
`cursorMax`. -/
theorem c3_cursor_monotonicity_witness :
    0 ≤ ((runCursorDeltas [1, 1, -1]).getD metaZero).cursor ∧
    ((runCursorDeltas [1, 1, -1]).getD metaZero).cursor ≤
      ((runCursorDeltas [1, 1, -1]).getD metaZero).cursorMax ∧
    ((runCursorDeltas [1, 1, -1]).getD metaZero).cursorMax ≤
      ((cursorStep (runCursorDeltas [1, 1, -1]) (-1)).getD metaZero).cursorMax :=
  ⟨(c3_cursor_monotonicity [1, 1, -1] (by decide)).1,
    (c3_cursor_monotonicity [1, 1, -1] (by decide)).2.1,
    (c3_cursor_monotonicity [1, 1, -1] (by decide)).2.2.1 (-1)⟩

/-! ## Claims about the sync orchestrator and the lease (C1, C5, C9) -/

theorem acquireLockT_true (env : Env) (s : LayerState)
    (hl : (acquireLockT env s).1 = true) :
    acquireLockT env s = (true, { s with lock := some env.now }) := by
  unfold acquireLockT at hl ⊢
  cases hf : env.lockFault with
  | some e => simp [hf] at hl
  | none =>
      rw [hf] at hl
      dsimp only at hl ⊢
      cases hk : s.lock with
      | none => rfl
      | some ts =>
          rw [hk] at hl
          dsimp only at hl ⊢
          by_cases hc : ts < env.now - LOCK_TTL_SECONDS * 1000
          · rw [if_pos hc]
          · rw [if_neg hc] at hl
            simp at hl

theorem acquireLockT_sndPendingStore (env : Env) (s : LayerState) :
    (acquireLockT env s).2.pendingStore = s.pendingStore := by
  unfold acquireLockT
  cases env.lockFault with
  | some e => rfl
  | none =>
      dsimp only
      cases s.lock with
      | none => rfl
      | some ts =>
          dsimp only
          by_cases hc : ts < env.now - LOCK_TTL_SECONDS * 1000
          · rw [if_pos hc]
          · rw [if_neg hc]

/-- Every error the per-partition loop returns originates from a `setter`
call. -/
theorem syncProcess_error_setter (env : Env) (cursor : Int)
    (gs : List (String × List (PendingRec LItem))) (e : LayerErr)
    (h : syncProcess env cursor gs = .error e) :
    ∃ pk items, env.setter pk items = .error e := by
  induction gs with
  | nil => simp [syncProcess] at h
  | cons g rest ih =>
      obtain ⟨pk, evs⟩ := g
      simp only [syncProcess] at h
      cases hs : env.setter (removeFirstStr ("#" ++ toString cursor) pk)
          (mergeL (env.getter (removeFirstStr ("#" ++ toString cursor) pk)) evs) with
      | ok u => rw [hs] at h; exact ih h
      | error e' =>
          rw [hs] at h
          simp only [Except.error.injEq] at h
          exact ⟨_, _, h ▸ hs⟩

/-- C1: if the per-partition loop of `sync` throws (every such error is a
`setter` error, see `syncProcess_error_setter`), `sync` re-raises that very
error, the compensating `advanceCursor: -1` restores the cursor read at the
start of the call (net zero), the lease lock is released, and no pending
event was deleted. -/
theorem c1_sync_setter_error_rollback (env : Env) (s : LayerState) (e : LayerErr)
    (h0 : 0 ≤ cursorOf s)
    (hl : (acquireLockT env s).1 = true)
    (hp : syncProcess env (cursorOf s) (syncGroups env s (cursorOf s)) = .error e) :
    (sync env s).1 = .error e ∧ cursorOf (sync env s).2 = cursorOf s ∧
    (sync env s).2.lock = none ∧ (sync env s).2.pendingStore = s.pendingStore := by
  have hA := acquireLockT_true env s hl
  have hM : metaUpdate s.metaRec 1 0 0 = .ok (some { s.metaRec.getD metaZero with
      cursor := (s.metaRec.getD metaZero).cursor + 1,
      cursorMax := (s.metaRec.getD metaZero).cursorMax + 1 }) := by
    simp [metaUpdate]
  simp only [cursorOf] at h0 hp ⊢
  unfold sync
  rw [hA]
  dsimp only
  rw [hM]
  dsimp only
  simp only [cursorOf, syncGroups, syncPending] at hp ⊢
  rw [hp]
  dsimp only
  have hR : metaUpdate (some { s.metaRec.getD metaZero with
      cursor := (s.metaRec.getD metaZero).cursor + 1,
      cursorMax := (s.metaRec.getD metaZero).cursorMax + 1 }) (-1) 0 0 =
      .ok (some { s.metaRec.getD metaZero with
        cursor := (s.metaRec.getD metaZero).cursor + 1 + -1,
        cursorMax := (s.metaRec.getD metaZero).cursorMax + 1 + 0 }) := by
    have h1 : (1 : Int) ≤ (s.metaRec.getD metaZero).cursor + 1 := by omega
    simp [metaUpdate, h1]
  rw [hR]
  dsimp only [releaseLock]
  refine ⟨rfl, ?_, rfl, rfl⟩
  simp

/-- C1 witness: one pending event at cursor 0 and an always-throwing
`setter`: `sync` reports the setter's error, the cursor is back at 0, the
lock is free, and the pending event is still stored. -/
theorem c1_sync_setter_error_rollback_witness :
    (0 ≤ cursorOf stateOneEvent) ∧
    ((sync envSetterFails stateOneEvent).1 = .error (.setterFailed 7) ∧
      cursorOf (sync envSetterFails stateOneEvent).2 = cursorOf stateOneEvent ∧
      (sync envSetterFails stateOneEvent).2.lock = none ∧
      (sync envSetterFails stateOneEvent).2.pendingStore =
        stateOneEvent.pendingStore) :=
  ⟨by decide,
    c1_sync_setter_error_rollback envSetterFails stateOneEvent (.setterFailed 7)
      (by decide) (by rfl) (by rfl)⟩

/-- C5 counterexample: a fully successful `sync` over one pending event at
cursor 0 returns `{count: 1, locked: false}` but the retired generation's
pending event is still present in the pending-event store — nothing was
deleted in bulk, contrary to the claim. -/
theorem c5_sync_deletes_pending_counterexample :
    (sync envOk stateOneEvent).1 = .ok ⟨1, false⟩ ∧
    evPending ∈ (sync envOk stateOneEvent).2.pendingStore := by
  constructor
  · rfl
  · decide

/-- C5 amended: `sync` never mutates the pending-event store at all — the
retired generation's events are left in place (they are retired logically by
the cursor advance and physically removed only by the store's TTL expiry or
by `reset`). -/
theorem c5_sync_preserves_pending (env : Env) (s : LayerState) :
    (sync env s).2.pendingStore = s.pendingStore := by
  unfold sync
  cases hA : acquireLockT env s with
  | mk b s' =>
      have hs' : s'.pendingStore = s.pendingStore := by
        have h2 := congrArg (fun p => (p : Bool × LayerState).2.pendingStore) hA
        simp only at h2
        rw [← h2, acquireLockT_sndPendingStore]
      cases b with
      | false => exact hs'
      | true =>
          dsimp only
          cases metaUpdate s'.metaRec 1 0 0 with
          | error e => exact hs'
          | ok m1 =>
              dsimp only
              cases syncProcess env (cursorOf s')
                  (syncGroups env { s' with metaRec := m1 } (cursorOf s')) with
              | error e =>
                  cases metaUpdate m1 (-1) 0 0 with
                  | ok m2 => exact hs'
                  | error e2 => exact hs'
              | ok u =>
                  cases metaUpdate m1 0
                      (Int.ofNat (syncPending env { s' with metaRec := m1 }
                        (cursorOf s')).length) 0 with
                  | ok m3 => exact hs'
                  | error e => exact hs'

/-- C9: every error of the lock's conditional update — not only a
conditional-check failure — is swallowed by `acquireLock(true)`'s bare
`catch` and reported as `false`, so `sync` and `reset` return
`{count: 0, locked: true}` without raising. -/
theorem c9_lock_errors_swallowed (env : Env) (s : LayerState) (e : LayerErr)
    (src : List LItem) (p : Option String) (hf : env.lockFault = some e) :
    acquireLockT env s = (false, s) ∧
    sync env s = (.ok ⟨0, true⟩, s) ∧
    reset env src p s = (.ok ⟨0, true⟩, s) := by
  have hA : acquireLockT env s = (false, s) := by
    unfold acquireLockT
    rw [hf]
  refine ⟨hA, ?_, ?_⟩
  · unfold sync
    rw [hA]
  · unfold reset
    rw [hA]

/-- C9 witness: with the store raising an arbitrary (non-conditional) fault
on the lock update, `acquireLock` reports `false` and `sync`/`reset` report
`{count: 0, locked: true}` on the empty state. -/
theorem c9_lock_errors_swallowed_witness :
    envFault.lockFault = some (.storeFault 3) ∧
    (acquireLockT envFault stateEmpty = (false, stateEmpty) ∧
      sync envFault stateEmpty = (.ok ⟨0, true⟩, stateEmpty) ∧
      reset envFault [] none stateEmpty = (.ok ⟨0, true⟩, stateEmpty)) :=
  ⟨rfl, c9_lock_errors_swallowed envFault stateEmpty (.storeFault 3) [] none rfl⟩

/-! ## Claims about the cursor-stripped getter key (C8) -/

theorem toDigitsCore_len_ge (b : Nat) : ∀ (fuel n : Nat) (ds : List Char),
    ds.length ≤ (Nat.toDigitsCore b fuel n ds).length := by
  intro fuel
  induction fuel with
  | zero => intro n ds; simp [Nat.toDigitsCore]
  | succ f ih =>
      intro n ds
      simp only [Nat.toDigitsCore]
      by_cases h : n / b = 0
      · rw [if_pos h]; simp
      · rw [if_neg h]
        calc ds.length ≤ (Nat.digitChar (n % b) :: ds).length := by simp
        _ ≤ _ := ih _ _

theorem natToDigits_ne_nil (b n : Nat) : Nat.toDigits b n ≠ [] := by
  unfold Nat.toDigits
  simp only [Nat.toDigitsCore]
  by_cases h : n / b = 0
  · rw [if_pos h]; simp
  · rw [if_neg h]
    intro hcontra
    have hlen := toDigitsCore_len_ge b n (n / b) [Nat.digitChar (n % b)]
    rw [hcontra] at hlen
    simp at hlen

theorem natRepr_ne_empty (n : Nat) : Nat.repr n ≠ "" := by
  intro h
  have hd : (Nat.toDigits 10 n) = [] := by
    have h2 := congrArg String.data h
    simpa [Nat.repr, List.asString] using h2
  exact natToDigits_ne_nil 10 n hd

/-- The decimal rendering of a cursor value is never the empty segment, so
`_.compact` keeps it and the physical key always carries the cursor
suffix. -/
theorem toStringInt_ne_empty (c : Int) : toString c ≠ "" := by
  show Int.repr c ≠ ""
  cases c with
  | ofNat m => exact natRepr_ne_empty m
  | negSucc m =>
      show "-" ++ Nat.repr (m + 1) ≠ ""
      intro h
      have h2 := congrArg String.data h
      simp [String.data_append] at h2

theorem charsIsPrefixIff (a b : List Char) : a.isPrefixOf b = true ↔ a <+: b :=
  List.isPrefixOf_iff_prefix

/-- JS `replace` removes exactly the trailing occurrence of the pattern
whenever no occurrence starts earlier in the string. -/
theorem removeFirstChars_of_trailing (pat : List Char) (hnp : pat ≠ []) :
    ∀ pre : List Char, ¬ pat <:+: (pre ++ pat).dropLast →
      removeFirstChars pat (pre ++ pat) = pre := by
  intro pre
  induction pre with
  | nil =>
      intro h
      cases pat with
      | nil => exact absurd rfl hnp
      | cons c rest =>
          show removeFirstChars (c :: rest) ([] ++ c :: rest) = []
          simp only [List.nil_append, removeFirstChars]
          rw [if_pos ((charsIsPrefixIff _ _).mpr ( List.prefix_refl _))]
          exact List.drop_length _
  | cons c p ih =>
      intro h
      rw [List.cons_append] at h ⊢
      have hne : p ++ pat ≠ [] := by
        intro hcontra
        exact hnp (List.append_eq_nil.mp hcontra).2
      have hdl : (c :: (p ++ pat)).dropLast = c :: (p ++ pat).dropLast := by
        have h2 := List.dropLast_append_of_ne_nil [c] hne
        simpa using h2
      show removeFirstChars pat (c :: (p ++ pat)) = c :: p
      simp only [removeFirstChars]
      by_cases hp : pat.isPrefixOf (c :: (p ++ pat)) = true
      · exfalso
        apply h
        obtain ⟨t, ht⟩ := (charsIsPrefixIff _ _).mp hp
        have htne : t ≠ [] := by
          intro hcontra
          subst hcontra
          rw [List.append_nil] at ht
          have hlen := congrArg List.length ht
          simp at hlen
          omega
        rw [← ht, List.dropLast_append_of_ne_nil pat htne]
        exact ( List.prefix_append pat t.dropLast).isInfix
      · rw [if_neg hp]
        congr 1
        apply ih
        intro hcontra
        apply h
        rw [hdl]
        exact List.infix_cons hcontra

/-- With a non-empty table name the physical key is the cursor-stripped
logical key followed by the `#cursor` suffix. -/
theorem resolvePartition_trailing (table : String) (cursor : Int)
    (partition : String) (htab : table ≠ "") :
    resolvePartition table cursor partition =
      joinSep "#" ([table, trimStr partition].filter (fun seg => seg ≠ "")) ++
        ("#" ++ toString cursor) := by
  have hc := toStringInt_ne_empty cursor
  unfold resolvePartition
  by_cases ht : trimStr partition = ""
  · simp [List.filter, ht, htab, hc, joinSep, String.append_assoc]
  · simp [List.filter, ht, htab, hc, joinSep, String.append_assoc]

/-- C8 counterexample: for cursor 0 and sub-partition `"x#0y"` — which
contains `#0` — `replace` removes the `#0` inside the partition rather than
the trailing cursor suffix, so the key passed to the `getter` is
`"t#xy#0"`, not the segments `[table, partition]` joined (`"t#x#0y"`). -/
theorem c8_stripped_key_counterexample :
    strippedGetKey "t" 0 "x#0y" = "t#xy#0" ∧
    strippedGetKey "t" 0 "x#0y" ≠
      joinSep "#" (["t", trimStr "x#0y"].filter (fun seg => seg ≠ "")) := by
  decide

/-- C8 amended: the key passed to the external `getter` is the physical key
with the *first* occurrence of `"#" ++ cursor` removed; it equals the
non-empty segments `[table, trimmed partition]` joined by `#` provided the
table name is non-empty and `"#" ++ cursor` occurs nowhere in the physical
key except as its trailing suffix. -/
theorem c8_stripped_key_amended (table : String) (cursor : Int)
    (partition : String) (htab : table ≠ "")
    (hocc : ¬ ("#" ++ toString cursor).data <:+:
        (resolvePartition table cursor partition).data.dropLast) :
    strippedGetKey table cursor partition =
      joinSep "#" ([table, trimStr partition].filter (fun seg => seg ≠ "")) := by
  have hres := resolvePartition_trailing table cursor partition htab
  have hnp : "#".data ++ (toString cursor).data ≠ [] := by
    show ('#' :: ([] : List Char)) ++ (toString cursor).data ≠ []
    simp
  unfold strippedGetKey removeFirstStr
  rw [hres] at hocc ⊢
  simp only [String.data_append] at hocc ⊢
  rw [removeFirstChars_of_trailing _ hnp _ hocc]

/-- C8 amended, witness: for table `"t"`, cursor 5 and partition `"part"`
the stripped key is `"t#part"`, the join of the non-empty segments. -/
theorem c8_stripped_key_amended_witness :
    (("t" : String) ≠ "" ∧
      ¬ ("#" ++ toString (5 : Int)).data <:+:
        (resolvePartition "t" 5 "part").data.dropLast) ∧
    strippedGetKey "t" 5 "part" =
      joinSep "#" (["t", trimStr "part"].filter (fun seg => seg ≠ "")) :=
  ⟨⟨by decide, by decide⟩,
    c8_stripped_key_amended "t" 5 "part" (by decide) (by decide)⟩

/-! ## Claims about event ingestion (C4, C10) -/

/-- If any event of the batch lacks a unique identifier, the eager
event-building `_.map` throws before any write is issued. -/
theorem buildWriteEvents_error (env : Env) (c : Int) :
    ∀ {l : List ChangeEv} {ev : ChangeEv}, ev ∈ l → lid ev.item = "" →
      buildWriteEvents env c l = .error .noUniqueIdentifier := by
  intro l
  induction l with
  | nil => intro ev h _; simp at h
  | cons e rest ih =>
      intro ev h hid
      rcases List.mem_cons.mp h with rfl | hmem
      · simp [buildWriteEvents, hid]
      · by_cases he : lid e.item = ""
        · simp [buildWriteEvents, he]
        · simp [buildWriteEvents, he, ih hmem hid]

/-- C10: if any event in the batch has an item with an empty unique
identifier, `set` throws the validation error before performing any store
mutation: the state (pending store and meta record) is unchanged and the
operation trace is empty (no persist, no meta delta, no sync trigger) —
validation is atomic over the whole batch. -/
theorem c10_set_validation_atomic (env : Env) (s : LayerState)
    (events : List ChangeEv) (cursorArg : Option Int) (ev : ChangeEv)
    (hmem : ev ∈ events) (hid : lid ev.item = "") :
    setOp env s events cursorArg = (.error .noUniqueIdentifier, s, []) := by
  have hne : events ≠ [] := by rintro rfl; simp at hmem
  unfold setOp
  rw [if_neg hne]
  dsimp only
  rw [buildWriteEvents_error env _ hmem hid]

/-- C10 witness: a batch whose second event has an empty identifier is
rejected wholesale — nothing is persisted, the meta record is untouched and
no sync is triggered, even though the first event was valid. -/
theorem c10_set_validation_atomic_witness :
    (evChangeBad ∈ [evChange, evChangeBad] ∧ lid evChangeBad.item = "") ∧
    setOp envOk stateEmpty [evChange, evChangeBad] none =
      (.error .noUniqueIdentifier, stateEmpty, []) :=
  ⟨⟨by decide, rfl⟩,
    c10_set_validation_atomic envOk stateEmpty [evChange, evChangeBad] none
      evChangeBad (by decide) rfl⟩

theorem buildWriteEvents_length (env : Env) (c : Int) :
    ∀ {l : List ChangeEv} {ws : List (PendingRec LItem)},
      buildWriteEvents env c l = .ok ws → ws.length = l.length := by
  intro l
  induction l with
  | nil =>
      intro ws h
      simp [buildWriteEvents] at h
      simp [← h]
  | cons e rest ih =>
      intro ws h
      simp only [buildWriteEvents] at h
      by_cases he : lid e.item = ""
      · simp [he] at h
      · rw [if_neg he] at h
        cases hr : buildWriteEvents env c rest with
        | error e2 => rw [hr] at h; simp at h
        | ok tail =>
            rw [hr] at h
            simp only [Except.ok.injEq] at h
            rw [← h]
            simp [ih hr]

/-- C4 counterexample: for a singleton valid batch (no sync strategy
configured) the operation trace of `set` is `[metaDelta, persistEvents]` —
the meta delta comes first and the bulk persist is *not* the first store
operation, contrary to the claimed order. -/
theorem c4_set_order_counterexample :
    (setOp envOk stateEmpty [evChange] none).2.2 =
      [Op.metaDelta 0 0 1, Op.persistEvents 1] ∧
    (setOp envOk stateEmpty [evChange] none).2.2.head? ≠
      some (Op.persistEvents 1) := by
  decide

/-- C4 amended: for every non-empty batch on which `set` succeeds, the
operation order is: first the meta delta `{advanceCursor: 0, unsyncedTotal:
batchSize}`, then (exactly when the configured strategy fires) the sync
trigger, and the bulk persist of the pending events comes last. -/
theorem c4_set_order_amended (env : Env) (s : LayerState)
    (events : List ChangeEv) (cursorArg : Option Int) (r : Unit)
    (s' : LayerState) (tr : List Op) (hne : events ≠ [])
    (hok : setOp env s events cursorArg = (.ok r, s', tr)) :
    tr = [Op.metaDelta 0 0 (Int.ofNat events.length),
        Op.persistEvents events.length] ∨
    tr = [Op.metaDelta 0 0 (Int.ofNat events.length), Op.syncTriggered,
        Op.persistEvents events.length] := by
  unfold setOp at hok
  rw [if_neg hne] at hok
  dsimp only at hok
  cases hw : buildWriteEvents env (cursorArg.getD (cursorOf s)) events with
  | error e =>
      rw [hw] at hok
      exact absurd (congrArg Prod.fst hok) (by simp)
  | ok ws =>
      rw [hw] at hok
      dsimp only at hok
      have hlen := buildWriteEvents_length env (cursorArg.getD (cursorOf s)) hw
      cases hm : metaUpdate s.metaRec 0 0 (Int.ofNat ws.length) with
      | error e =>
          rw [hm] at hok
          exact absurd (congrArg Prod.fst hok) (by simp)
      | ok m1 =>
          rw [hm] at hok
          dsimp only at hok
          split at hok
          · split at hok
            · have htr := congrArg
                (fun t : Except LayerErr Unit × LayerState × List Op => t.2.2) hok
              simp only at htr
              rw [← htr, hlen]
              right
              rfl
            · split at hok
              · exact absurd (congrArg Prod.fst hok) (by simp)
              · have htr := congrArg
                  (fun t : Except LayerErr Unit × LayerState × List Op => t.2.2) hok
                simp only at htr
                rw [← htr, hlen]
                right
                rfl
          · have htr := congrArg
              (fun t : Except LayerErr Unit × LayerState × List Op => t.2.2) hok
            simp only at htr
            rw [← htr, hlen]
            left
            rfl

/-- C4 amended, witness: the successful singleton `set` produces the trace
`[metaDelta(0,0,1), persistEvents(1)]` — meta first, persist last. -/
theorem c4_set_order_amended_witness :
    ([evChange] ≠ ([] : List ChangeEv)) ∧
    ((setOp envOk stateEmpty [evChange] none).2.2 =
        [Op.metaDelta 0 0 1, Op.persistEvents 1] ∨
      (setOp envOk stateEmpty [evChange] none).2.2 =
        [Op.metaDelta 0 0 1, Op.syncTriggered, Op.persistEvents 1]) :=
  ⟨by decide,
    c4_set_order_amended envOk stateEmpty [evChange] none ()
      (setOp envOk stateEmpty [evChange] none).2.1
      (setOp envOk stateEmpty [evChange] none).2.2 (by decide) rfl⟩

end UseDynamodb

